import Mathlib

/-
Verification of the dayflow_cli capture-and-mux pipeline.

The definitions below are a shallow embedding of the repository's Python
source:
  * the activity-driven capture loop of `main.py` (`start_logging_and_recording`),
  * the audio mixing loop of `src/core/recording_logic.py` (`_record_audio`),
  * the frame compositing routine `record_frame` of the same file,
  * the `ScreenRecorder` lifecycle of `src/core/recorder.py`.

Machine floats of the source are modelled as rationals; numpy arrays as
lists; the int16 cast as truncation toward zero followed by wrapping
modulo 2^16.
-/

namespace Dayflow

/- ===== Activity states and the capture loop (main.py) ===== -/

/-- The four-field tuple returned by `get_active_window_info`
(src/src/core/activity.py line 32): `(process_name, window_title, url,
file_path)`; every field may be Python `None` (the all-`none` value is the
error return of line 36). Python tuple equality is field-by-field value
equality, matching the derived `DecidableEq`. -/
structure ActivityState where
  application : Option String
  windowTitle : Option String
  url : Option String
  filePath : Option String
deriving DecidableEq

/-- The mutable state of the main loop in `start_logging_and_recording`
(src/main.py lines 23, 29, 47-48): `last_state` (initially Python `None`,
hence an `Option`), the rows written so far to the CSV logger (we record
the logged `ActivityState`; the wall-clock timestamp column is irrelevant
to row counting), `recording_started`, `last_frame_time` (initially `0`),
and the number of frames appended to `video_frames`. -/
structure LoopState where
  lastState : Option ActivityState
  log : List ActivityState
  recordingStarted : Bool
  lastFrameTime : ℚ
  frames : ℕ
deriving DecidableEq

/-- One iteration of the `while True` loop of src/main.py lines 51-71.
`t1` is the value of `time.time()` read on line 63 (inside the transition
branch) and `t2` the value read on line 68 (the periodic-cadence branch);
the two reads happen within one poll, microseconds apart.  Line 55 guards
the transition branch by `current_state != last_state and app is not None`;
on a transition a CSV row is written (line 57), `last_state` is updated
(line 58), `recording_started` is set (line 61), the cadence timer is reset
(line 63) and a frame is recorded (line 64).  Lines 67-71 fire the periodic
capture when recording has started and at least `1.0` second elapsed since
`last_frame_time`, resetting the timer. -/
def pollStep (s : LoopState) (cur : ActivityState) (t1 t2 : ℚ) : LoopState :=
  let s1 :=
    if some cur ≠ s.lastState ∧ cur.application ≠ none then
      { s with lastState := some cur
               log := s.log ++ [cur]
               recordingStarted := true
               lastFrameTime := t1
               frames := s.frames + 1 }
    else s
  if s1.recordingStarted = true ∧ 1 ≤ t2 - s1.lastFrameTime then
    { s1 with lastFrameTime := t2, frames := s1.frames + 1 }
  else s1

/-- Run the capture loop over a list of polls; each poll supplies the
observed `ActivityState` and the wall-clock time of that iteration (both
`time.time()` reads of a single iteration return essentially the same
instant, so one time per poll is used here). -/
def runPolls (s : LoopState) (polls : List (ActivityState × ℚ)) : LoopState :=
  polls.foldl (fun st p => pollStep st p.1 p.2 p.2) s

/-- The loop state right before the first iteration (src/main.py lines 23,
29, 47-48): no last state, no log rows, not recording, timer at `0`, no
frames. -/
def initLoopState : LoopState := ⟨none, [], false, 0, 0⟩

/-- Scenario A state `("Editor", "file.txt")`: editor in the foreground. -/
def editorState : ActivityState := ⟨some "Editor", some "file.txt", none, none⟩

/-- Scenario A state `("Browser", "Home")`: browser in the foreground. -/
def browserState : ActivityState := ⟨some "Browser", some "Home", none, none⟩

/-- Scenario A of the specification: activity sequence
`[("Editor","file.txt"), ("Editor","file.txt"), ("Browser","Home")]`
observed at `t = 0, 1, 2` seconds. -/
def scenarioA : List (ActivityState × ℚ) :=
  [(editorState, 0), (editorState, 1), (browserState, 2)]

/-- C1: On every poll, a log row is written and `lastActivityState` is
updated exactly when the observed state differs from the previous one
under full four-field tuple equality and its application field is
non-null; a duplicate sample writes no row, and a null-application sample
never counts as a transition.  In Scenario A exactly 2 log rows are
produced (the states logged are the editor state and the browser state). -/
theorem capture_loop_log_iff :
    (∀ (s : LoopState) (cur : ActivityState) (t1 t2 : ℚ),
      (pollStep s cur t1 t2).log =
        (if some cur ≠ s.lastState ∧ cur.application ≠ none
         then s.log ++ [cur] else s.log) ∧
      (pollStep s cur t1 t2).lastState =
        (if some cur ≠ s.lastState ∧ cur.application ≠ none
         then some cur else s.lastState)) ∧
    (runPolls initLoopState scenarioA).log = [editorState, browserState] := by
  constructor
  · intro s cur t1 t2
    simp only [pollStep]
    constructor <;> (split <;> split <;> rfl)
  · have s1 : pollStep initLoopState editorState 0 0 =
        ⟨some editorState, [editorState], true, 0, 1⟩ := by
      simp +decide only [pollStep, initLoopState]
      norm_num
    have s2 : pollStep ⟨some editorState, [editorState], true, 0, 1⟩ editorState 1 1 =
        ⟨some editorState, [editorState], true, 1, 2⟩ := by
      simp +decide only [pollStep]
      norm_num
    have s3 : pollStep ⟨some editorState, [editorState], true, 1, 2⟩ browserState 2 2 =
        ⟨some browserState, [editorState, browserState], true, 2, 3⟩ := by
      simp +decide only [pollStep]
      norm_num
    have hrun : runPolls initLoopState scenarioA =
        pollStep (pollStep (pollStep initLoopState editorState 0 0) editorState 1 1)
          browserState 2 2 := rfl
    rw [hrun, s1, s2, s3]

/-- C2: On a poll where a genuine transition occurs and the periodic
cadence condition also holds, exactly one frame capture happens: the
transition path captures and resets the cadence timer to its own clock
read `t1`, and since the second clock read `t2` of the same iteration is
less than the one-second interval later, the periodic branch does not
fire. -/
theorem capture_loop_single_capture (s : LoopState) (cur : ActivityState)
    (t1 t2 : ℚ)
    (htrans : some cur ≠ s.lastState) (happ : cur.application ≠ none)
    (hcad : 1 ≤ t2 - s.lastFrameTime)
    (hmono : t1 ≤ t2) (hlat : t2 - t1 < 1) :
    (pollStep s cur t1 t2).frames = s.frames + 1 ∧
    (pollStep s cur t1 t2).lastFrameTime = t1 := by
  have h2 : ¬ (True ∧ 1 ≤ t2 - t1) := by
    rintro ⟨-, h⟩; linarith
  simp only [pollStep, if_pos (And.intro htrans happ)]
  rw [if_neg h2]
  exact ⟨rfl, rfl⟩

/-- Witness for C2 at a concrete poll: previous state empty, editor state
observed at time `t1 = t2 = 5`, cadence satisfied since the timer is at
`0`. -/
theorem capture_loop_single_capture_witness :
    (pollStep initLoopState editorState 5 5).frames = initLoopState.frames + 1 ∧
    (pollStep initLoopState editorState 5 5).lastFrameTime = 5 :=
  capture_loop_single_capture initLoopState editorState 5 5
    (by decide) (by decide) (by norm_num [initLoopState]) (le_refl 5) (by norm_num)

/- ===== Audio mixing (`_record_audio`, src/src/core/recording_logic.py) ===== -/

/-- A numpy float array as returned by one `recorder.record` call: either
one-dimensional (shape `(n,)`) or two-dimensional (shape `(n, channels)`:
a list of frames, each frame a list of per-channel samples; a real numpy
array is rectangular, see `NpAudio.Rect`).  Float samples are modelled as
rationals. -/
inductive NpAudio where
  | oneD (xs : List ℚ)
  | twoD (rows : List (List ℚ))
deriving DecidableEq

/-- Python `len(data)` on a numpy array: the size of the first axis. -/
def NpAudio.len : NpAudio → ℕ
  | oneD xs => xs.length
  | twoD rows => rows.length

/-- Python `data[:n]` for `0 ≤ n`: truncation along the first axis. -/
def NpAudio.take (n : ℕ) : NpAudio → NpAudio
  | oneD xs => oneD (xs.take n)
  | twoD rows => twoD (rows.take n)

/-- Lines 62-65 of recording_logic.py: `if chunk.ndim == 1:
chunk = chunk[:, np.newaxis]` -- a 1-D chunk becomes a column vector, a
2-D chunk is unchanged. -/
def NpAudio.to2D : NpAudio → List (List ℚ)
  | oneD xs => xs.map (fun x => [x])
  | twoD rows => rows

/-- `shape[1]` of a 2-D array in the list model: the length of the first
row (the arrays this is applied to in `mixStep` are nonempty). -/
def cols (rows : List (List ℚ)) : ℕ := (rows.headD []).length

/-- Rectangularity: every row has the common length, as in a real numpy
array. -/
def NpAudio.Rect : NpAudio → Prop
  | oneD _ => True
  | twoD rows => ∀ r ∈ rows, r.length = cols rows

instance : (a : NpAudio) → Decidable a.Rect
  | .oneD _ => .isTrue trivial
  | .twoD rows => inferInstanceAs (Decidable (∀ r ∈ rows, r.length = cols rows))

/-- Truncation toward zero: the rounding used by numpy float-to-integer
casts (`astype(np.int16)`), before overflow wrapping. -/
def ratTrunc (q : ℚ) : ℤ := if 0 ≤ q then ⌊q⌋ else ⌈q⌉

/-- Wrapping of an integer into the int16 range: the overflow behaviour
of numpy integer casts. -/
def wrapInt16 (n : ℤ) : ℤ := (n + 32768) % 65536 - 32768

/-- Lines 81-82 of recording_logic.py applied to one sample:
`np.clip(x, -1.0, 1.0)`, multiplication by `32767`, cast to `np.int16`.
`np.clip(x, lo, hi)` is `min(hi, max(lo, x))`. -/
def pcm16 (q : ℚ) : ℤ := wrapInt16 (ratTrunc (min 1 (max (-1) q) * 32767))

/-- The `min_channels` value of line 67 of recording_logic.py, computed
from the two raw chunks: channel counts are read after the row truncation
of lines 59-60 and the 1-D fix of lines 62-65. -/
def mixMinCh (l m : NpAudio) : ℕ :=
  let minLen := min l.len m.len
  min (cols ((l.take minLen).to2D)) (cols ((m.take minLen).to2D))

/-- One iteration of the audio mixing loop, lines 52-83 of
src/src/core/recording_logic.py, on the two chunks returned by
`loopback_rec.record` and `mic_rec.record`.  Returns `none` when the
iteration `continue`s without writing to the WAV sink (zero overlapping
frames, lines 56-58, or zero overlapping channels, lines 67-69) and
`some pcm` when the interleaved int16 rows `pcm` are written (line 83).
Line 73 averages the aligned chunks; lines 76-79 duplicate a mono result
to stereo or keep only the first two channels; lines 81-82 clip, scale
and cast. -/
def mixStep (loopbackData micData : NpAudio) : Option (List (List ℤ)) :=
  let minLen := min loopbackData.len micData.len
  if minLen = 0 then none else
  let lc := (loopbackData.take minLen).to2D
  let mc := (micData.take minLen).to2D
  let minChannels := min (cols lc) (cols mc)
  if minChannels = 0 then none else
  let l2 := lc.map (fun r => r.take minChannels)
  let m2 := mc.map (fun r => r.take minChannels)
  let mixed := List.zipWith (List.zipWith (fun a b => (a + b) / 2)) l2 m2
  let mixed2 :=
    if cols mixed = 1 then mixed.map (fun r => r.flatMap (fun x => [x, x]))
    else if 2 < cols mixed then mixed.map (fun r => r.take 2)
    else mixed
  some (mixed2.map (fun r => r.map pcm16))

/-- The computation of `mixStep` after the two skip guards, on arrays
already truncated to the common length and put in 2-D form; proof
infrastructure, see `mixStep_eq_mix2D`. -/
def mixCore (A1 B1 : List (List ℚ)) (k : ℕ) : List (List ℤ) :=
  let A2 := A1.map (fun r => r.take k)
  let B2 := B1.map (fun r => r.take k)
  let mixed := List.zipWith (List.zipWith (fun a b => (a + b) / 2)) A2 B2
  let mixed2 :=
    if cols mixed = 1 then mixed.map (fun r => r.flatMap (fun x => [x, x]))
    else if 2 < cols mixed then mixed.map (fun r => r.take 2)
    else mixed
  mixed2.map (fun r => r.map pcm16)

/-- The computation of `mixStep` on arrays already put in 2-D form; proof
infrastructure, see `mixStep_eq_mix2D`. -/
def mix2D (A B : List (List ℚ)) : Option (List (List ℤ)) :=
  if min A.length B.length = 0 then none else
  if min (cols (A.take (min A.length B.length)))
       (cols (B.take (min A.length B.length))) = 0 then none else
  some (mixCore (A.take (min A.length B.length)) (B.take (min A.length B.length))
        (min (cols (A.take (min A.length B.length)))
             (cols (B.take (min A.length B.length)))))

lemma NpAudio.len_to2D (a : NpAudio) : a.to2D.length = a.len := by
  cases a <;> simp [NpAudio.to2D, NpAudio.len]

lemma NpAudio.to2D_take (n : ℕ) (a : NpAudio) :
    (a.take n).to2D = a.to2D.take n := by
  cases a <;> simp [NpAudio.to2D, NpAudio.take, List.map_take]

lemma mixStep_eq_mix2D (l m : NpAudio) : mixStep l m = mix2D l.to2D m.to2D := by
  simp only [mixStep, mix2D, mixCore, NpAudio.len_to2D, NpAudio.to2D_take]

/-- `cols` after truncating every row to `k` channels. -/
lemma cols_map_take (k : ℕ) (rows : List (List ℚ)) :
    cols (rows.map (fun r => r.take k)) = min k (cols rows) := by
  cases rows <;> simp [cols, List.length_take]

/-- Truncating the rows of already-truncated inputs once more is
invisible to `mixCore`, whose first step is exactly that truncation. -/
lemma mixCore_take_idem (A1 B1 : List (List ℚ)) (k : ℕ) :
    mixCore (A1.map (fun r => r.take k)) (B1.map (fun r => r.take k)) k =
      mixCore A1 B1 k := by
  unfold mixCore
  simp only [List.map_map]
  have h : ((fun r : List ℚ => r.take k) ∘ fun r : List ℚ => r.take k) =
      (fun r : List ℚ => r.take k) := by
    funext r; simp [List.take_take]
  rw [h]

lemma mixCore_length (A1 B1 : List (List ℚ)) (k : ℕ) :
    (mixCore A1 B1 k).length = min A1.length B1.length := by
  simp only [mixCore]
  split_ifs <;> simp [List.length_map, List.length_zipWith]

lemma mix2D_take_rows (A B : List (List ℚ)) :
    mix2D A B =
      mix2D (A.take (min A.length B.length)) (B.take (min A.length B.length)) := by
  unfold mix2D
  have e1 : min (A.take (min A.length B.length)).length
      (B.take (min A.length B.length)).length = min A.length B.length := by
    simp only [List.length_take]; omega
  rw [e1, List.take_take, List.take_take, min_self]

lemma mix2D_length (A B : List (List ℚ)) (out : List (List ℤ))
    (h : mix2D A B = some out) : out.length = min A.length B.length := by
  unfold mix2D at h
  by_cases h1 : min A.length B.length = 0
  · rw [if_pos h1] at h; exact absurd h (by simp)
  · rw [if_neg h1] at h
    by_cases h2 :
        min (cols (A.take (min A.length B.length)))
          (cols (B.take (min A.length B.length))) = 0
    · rw [if_pos h2] at h; exact absurd h (by simp)
    · rw [if_neg h2] at h
      obtain rfl := (Option.some_inj.mp h).symm
      rw [mixCore_length]
      simp only [List.length_take]
      omega

lemma mix2D_take_cols (A B : List (List ℚ)) :
    mix2D A B =
      mix2D
        (A.map (fun r =>
          r.take (min (cols (A.take (min A.length B.length)))
                      (cols (B.take (min A.length B.length))))))
        (B.map (fun r =>
          r.take (min (cols (A.take (min A.length B.length)))
                      (cols (B.take (min A.length B.length)))))) := by
  unfold mix2D
  have hlen : min (A.map (fun r =>
        r.take (min (cols (A.take (min A.length B.length)))
                    (cols (B.take (min A.length B.length)))))).length
      (B.map (fun r =>
        r.take (min (cols (A.take (min A.length B.length)))
                    (cols (B.take (min A.length B.length)))))).length =
      min A.length B.length := by
    simp [List.length_map]
  rw [hlen]
  have hcA : (A.map (fun r =>
        r.take (min (cols (A.take (min A.length B.length)))
                    (cols (B.take (min A.length B.length)))))).take
        (min A.length B.length) =
      (A.take (min A.length B.length)).map (fun r =>
        r.take (min (cols (A.take (min A.length B.length)))
                    (cols (B.take (min A.length B.length))))) := by
    rw [List.map_take]
  have hcB : (B.map (fun r =>
        r.take (min (cols (A.take (min A.length B.length)))
                    (cols (B.take (min A.length B.length)))))).take
        (min A.length B.length) =
      (B.take (min A.length B.length)).map (fun r =>
        r.take (min (cols (A.take (min A.length B.length)))
                    (cols (B.take (min A.length B.length))))) := by
    rw [List.map_take]
  rw [hcA, hcB, cols_map_take, cols_map_take]
  have hkA : min (min (cols (A.take (min A.length B.length)))
        (cols (B.take (min A.length B.length))))
      (cols (A.take (min A.length B.length))) =
      min (cols (A.take (min A.length B.length)))
        (cols (B.take (min A.length B.length))) :=
    min_eq_left (min_le_left _ _)
  have hkB : min (min (cols (A.take (min A.length B.length)))
        (cols (B.take (min A.length B.length))))
      (cols (B.take (min A.length B.length))) =
      min (cols (A.take (min A.length B.length)))
        (cols (B.take (min A.length B.length))) :=
    min_eq_left (min_le_right _ _)
  rw [hkA, hkB, min_self, mixCore_take_idem]

/-- C3: before mixing, both chunks are truncated to the shorter of the
two frame lengths and the shorter of the two channel counts, and a zero
overlap skips the iteration with nothing written: (i) zero overlapping
frames write nothing; (ii) zero overlapping channels write nothing;
(iii) the result depends on the chunks only through their first
`min_len` frames; (iv) output rows are emitted exactly for the
overlapping length; (v) the result depends on the (2-D) chunks only
through their first `min_channels` channels. -/
theorem mixStep_alignment :
    (∀ l m : NpAudio, min l.len m.len = 0 → mixStep l m = none) ∧
    (∀ l m : NpAudio, mixMinCh l m = 0 → mixStep l m = none) ∧
    (∀ l m : NpAudio,
      mixStep l m =
        mixStep (l.take (min l.len m.len)) (m.take (min l.len m.len))) ∧
    (∀ (l m : NpAudio) (out : List (List ℤ)),
      mixStep l m = some out → out.length = min l.len m.len) ∧
    (∀ r1 r2 : List (List ℚ),
      mixStep (NpAudio.twoD r1) (NpAudio.twoD r2) =
        mixStep
          (NpAudio.twoD (r1.map (fun r =>
            r.take (mixMinCh (NpAudio.twoD r1) (NpAudio.twoD r2)))))
          (NpAudio.twoD (r2.map (fun r =>
            r.take (mixMinCh (NpAudio.twoD r1) (NpAudio.twoD r2)))))) := by
  refine ⟨?_, ?_, ?_, ?_, ?_⟩
  · intro l m h
    unfold mixStep
    rw [if_pos h]
  · intro l m h
    unfold mixMinCh at h
    unfold mixStep
    by_cases h0 : min l.len m.len = 0
    · rw [if_pos h0]
    · rw [if_neg h0, if_pos h]
  · intro l m
    rw [mixStep_eq_mix2D, mixStep_eq_mix2D, NpAudio.to2D_take, NpAudio.to2D_take,
      ← NpAudio.len_to2D l, ← NpAudio.len_to2D m]
    exact mix2D_take_rows l.to2D m.to2D
  · intro l m out h
    rw [mixStep_eq_mix2D] at h
    rw [← NpAudio.len_to2D l, ← NpAudio.len_to2D m]
    exact mix2D_length _ _ _ h
  · intro r1 r2
    have hm : mixMinCh (NpAudio.twoD r1) (NpAudio.twoD r2) =
        min (cols (r1.take (min r1.length r2.length)))
            (cols (r2.take (min r1.length r2.length))) := rfl
    rw [hm, mixStep_eq_mix2D, mixStep_eq_mix2D]
    exact mix2D_take_cols r1 r2

/-- Witness for C3 at a concrete pair: one frame each, but the loopback
chunk has zero channels, so the overlapping channel count is zero and the
iteration writes nothing. -/
theorem mixStep_alignment_witness :
    mixStep (NpAudio.twoD [[]]) (NpAudio.twoD [[1]]) = none :=
  mixStep_alignment.2.1 (NpAudio.twoD [[]]) (NpAudio.twoD [[1]]) (by decide)

/-- `shape[1]` of a chunk after the 1-D fix. -/
def NpAudio.colsOf (a : NpAudio) : ℕ := cols a.to2D

lemma wrapInt16_eq_self (n : ℤ) (h1 : -32768 ≤ n) (h2 : n ≤ 32767) :
    wrapInt16 n = n := by
  unfold wrapInt16
  rw [Int.emod_eq_of_lt (by omega) (by omega)]
  omega

lemma ratTrunc_bounds (x : ℚ) (h1 : -32767 ≤ x) (h2 : x ≤ 32767) :
    -32767 ≤ ratTrunc x ∧ ratTrunc x ≤ 32767 := by
  unfold ratTrunc
  split
  · refine ⟨Int.le_floor.mpr (by exact_mod_cast h1), ?_⟩
    exact_mod_cast le_trans (Int.floor_le x) h2
  · refine ⟨?_, Int.ceil_le.mpr (by exact_mod_cast h2)⟩
    exact_mod_cast le_trans h1 (Int.le_ceil x)

/-- Every sample written by the mixer lies in the signed-16-bit subrange
`[-32767, 32767]`: clipping bounds the float, scaling maps it into the
range, truncation and wrapping keep it there. -/
lemma pcm16_range (q : ℚ) : -32767 ≤ pcm16 q ∧ pcm16 q ≤ 32767 := by
  have hcl : (-1 : ℚ) ≤ min 1 (max (-1) q) := le_min (by norm_num) (le_max_left _ _)
  have hcu : min 1 (max (-1) q) ≤ 1 := min_le_left _ _
  have hxl : (-32767 : ℚ) ≤ min 1 (max (-1) q) * 32767 := by nlinarith
  have hxu : min 1 (max (-1) q) * 32767 ≤ 32767 := by nlinarith
  have ht := ratTrunc_bounds _ hxl hxu
  unfold pcm16
  rw [wrapInt16_eq_self _ (by omega) ht.2]
  exact ht

lemma mixCore_sample_range (A1 B1 : List (List ℚ)) (k : ℕ) :
    ∀ r ∈ mixCore A1 B1 k, ∀ x ∈ r, -32767 ≤ x ∧ x ≤ 32767 := by
  intro r hr x hx
  simp only [mixCore] at hr
  obtain ⟨r2, hr2, rfl⟩ := List.mem_map.mp hr
  obtain ⟨y, hy, rfl⟩ := List.mem_map.mp hx
  exact pcm16_range y

lemma map_take_of_len (A : List (List ℚ)) (c : ℕ) (h : ∀ r ∈ A, r.length = c) :
    A.map (fun r => r.take c) = A := by
  rw [List.map_congr_left (g := id) (fun r hr => by rw [← h r hr]; exact List.take_length r)]
  exact List.map_id A

lemma NpAudio.rect_rows (a : NpAudio) (ha : a.Rect) (hpos : 0 < a.len) :
    ∀ r ∈ a.to2D, r.length = a.colsOf := by
  cases a with
  | oneD xs =>
    intro r hr
    obtain ⟨x, hx, rfl⟩ := List.mem_map.mp hr
    cases xs with
    | nil => simp [NpAudio.len] at hpos
    | cons y ys => simp [NpAudio.colsOf, NpAudio.to2D, cols]
  | twoD rows => exact ha

lemma getD_map_eq {α β : Type} (f : α → β) (l : List α) (i : ℕ) (dα : α) (dβ : β)
    (hi : i < l.length) : (l.map f).getD i dβ = f (l.getD i dα) := by
  induction l generalizing i with
  | nil => simp at hi
  | cons a l ih =>
    cases i with
    | zero => simp
    | succ n => simpa using ih n (by simpa using hi)

lemma getD_zipWith_eq {α β γ : Type} (f : α → β → γ) (A : List α) (B : List β)
    (i : ℕ) (dα : α) (dβ : β) (dγ : γ) (hiA : i < A.length) (hiB : i < B.length) :
    (List.zipWith f A B).getD i dγ = f (A.getD i dα) (B.getD i dβ) := by
  induction A generalizing B i with
  | nil => simp at hiA
  | cons a A ih =>
    cases B with
    | nil => simp at hiB
    | cons b B =>
      cases i with
      | zero => simp
      | succ n => simpa using ih B n (by simpa using hiA) (by simpa using hiB)

lemma getD_take_eq {α : Type} (l : List α) (n i : ℕ) (d : α) (hi : i < n) :
    (l.take n).getD i d = l.getD i d := by
  induction l generalizing n i with
  | nil => simp
  | cons a l ih =>
    cases n with
    | zero => omega
    | succ m =>
      cases i with
      | zero => simp
      | succ i' => simpa using ih m i' (by omega)

lemma exists_of_mem_zipWith {α β γ : Type} {f : α → β → γ} {A : List α}
    {B : List β} {r : γ} (h : r ∈ List.zipWith f A B) :
    ∃ a ∈ A, ∃ b ∈ B, r = f a b := by
  induction A generalizing B with
  | nil => simp at h
  | cons a A ih =>
    cases B with
    | nil => simp at h
    | cons b B =>
      rcases List.mem_cons.mp h with h1 | h2
      · exact ⟨a, List.mem_cons_self _ _, b, List.mem_cons_self _ _, h1⟩
      · obtain ⟨a', ha, b', hb, hr⟩ := ih h2
        exact ⟨a', List.mem_cons_of_mem _ ha, b', List.mem_cons_of_mem _ hb, hr⟩

lemma getD_mem_of_lt {α : Type} (l : List α) (i : ℕ) (d : α) (hi : i < l.length) :
    l.getD i d ∈ l := by
  rw [List.getD_eq_getElem _ _ hi]
  exact List.getElem_mem hi

/-- Characterization of one written block for aligned rectangular inputs:
the row count, the stereo width of every row, and the value of each of
the two output samples as the clipped, scaled, truncated mean of the
corresponding input samples (both output channels read input channel 0
when the mean is mono; channels beyond the second are dropped). -/
lemma mixCore_aligned (A B : List (List ℚ)) (c : ℕ)
    (hrA : ∀ r ∈ A, r.length = c) (hrB : ∀ r ∈ B, r.length = c)
    (hlen : B.length = A.length) (hposA : 0 < A.length) (hcpos : 0 < c) :
    (mixCore A B c).length = A.length ∧
    (∀ r ∈ mixCore A B c, r.length = 2) ∧
    (∀ i j, i < A.length → j < 2 →
      ((mixCore A B c).getD i []).getD j 0 =
        pcm16 (((A.getD i []).getD (if c = 1 then 0 else j) 0 +
                (B.getD i []).getD (if c = 1 then 0 else j) 0) / 2)) := by
  have hA2 : A.map (fun r => r.take c) = A := map_take_of_len A c hrA
  have hB2 : B.map (fun r => r.take c) = B := map_take_of_len B c hrB
  have hstep : mixCore A B c =
      (if cols (List.zipWith (List.zipWith (fun a b => (a + b) / 2)) A B) = 1 then
        (List.zipWith (List.zipWith (fun a b => (a + b) / 2)) A B).map
          (fun r => r.flatMap (fun x => [x, x]))
      else if 2 < cols (List.zipWith (List.zipWith (fun a b => (a + b) / 2)) A B) then
        (List.zipWith (List.zipWith (fun a b => (a + b) / 2)) A B).map (fun r => r.take 2)
      else List.zipWith (List.zipWith (fun a b => (a + b) / 2)) A B).map
        (fun r => r.map pcm16) := by
    simp only [mixCore, hA2, hB2]
  have hMlen : (List.zipWith (List.zipWith (fun a b : ℚ => (a + b) / 2)) A B).length
      = A.length := by
    rw [List.length_zipWith, hlen, min_self]
  have hMrowlen : ∀ r ∈ List.zipWith (List.zipWith (fun a b : ℚ => (a + b) / 2)) A B,
      r.length = c := by
    intro r hr
    obtain ⟨a, ha, b, hb, rfl⟩ := exists_of_mem_zipWith hr
    rw [List.length_zipWith, hrA a ha, hrB b hb, min_self]
  have hMgetD : ∀ i, i < A.length →
      (List.zipWith (List.zipWith (fun a b : ℚ => (a + b) / 2)) A B).getD i [] =
        List.zipWith (fun a b : ℚ => (a + b) / 2) (A.getD i []) (B.getD i []) := by
    intro i hi
    exact getD_zipWith_eq _ A B i [] [] [] hi (by omega)
  have hcolsM : cols (List.zipWith (List.zipWith (fun a b : ℚ => (a + b) / 2)) A B)
      = c := by
    rcases A with _ | ⟨a, A'⟩
    · simp at hposA
    rcases B with _ | ⟨b, B'⟩
    · simp at hlen
    simp only [List.zipWith_cons_cons, cols, List.headD_cons, List.length_zipWith]
    rw [hrA a (List.mem_cons_self _ _), hrB b (List.mem_cons_self _ _), min_self]
  have hArowD : ∀ i, i < A.length → (A.getD i []).length = c := by
    intro i hi
    exact hrA _ (getD_mem_of_lt A i [] hi)
  have hBrowD : ∀ i, i < A.length → (B.getD i []).length = c := by
    intro i hi
    exact hrB _ (getD_mem_of_lt B i [] (by omega))
  rw [hstep, hcolsM]
  by_cases h1 : c = 1
  · subst h1
    rw [if_pos rfl]
    refine ⟨by simp [hMlen], ?_, ?_⟩
    · intro r hr
      obtain ⟨r2, hr2, rfl⟩ := List.mem_map.mp hr
      obtain ⟨r3, hr3, rfl⟩ := List.mem_map.mp hr2
      obtain ⟨x, hx⟩ := List.length_eq_one.mp (hMrowlen r3 hr3)
      subst hx
      simp
    · intro i j hi hj
      rw [if_pos rfl]
      obtain ⟨x, hx⟩ := List.length_eq_one.mp (hArowD i hi)
      obtain ⟨y, hy⟩ := List.length_eq_one.mp (hBrowD i hi)
      have hiM2 : i < ((List.zipWith (List.zipWith (fun a b : ℚ => (a + b) / 2)) A B).map
          (fun r => r.flatMap (fun x => [x, x]))).length := by
        simp [hMlen]; omega
      rw [getD_map_eq _ _ i [] [] hiM2,
        getD_map_eq _ _ i [] [] (by rw [hMlen]; exact hi), hMgetD i hi, hx, hy]
      rcases j with _ | _ | j
      · simp
      · simp
      · omega
  · rw [if_neg h1]
    by_cases h2 : 2 < c
    · rw [if_pos h2]
      refine ⟨by simp [hMlen], ?_, ?_⟩
      · intro r hr
        obtain ⟨r2, hr2, rfl⟩ := List.mem_map.mp hr
        obtain ⟨r3, hr3, rfl⟩ := List.mem_map.mp hr2
        rw [List.length_map, List.length_take, hMrowlen r3 hr3]
        omega
      · intro i j hi hj
        rw [if_neg h1]
        rw [getD_map_eq _ _ i [] [] (by simp [hMlen]; omega),
          getD_map_eq _ _ i [] [] (by rw [hMlen]; exact hi),
          getD_map_eq _ _ j (0 : ℚ) (0 : ℤ)
            (by rw [List.length_take, hMgetD i hi, List.length_zipWith,
                    hArowD i hi, hBrowD i hi, min_self]; omega),
          getD_take_eq _ _ _ _ hj, hMgetD i hi,
          getD_zipWith_eq _ _ _ j (0 : ℚ) (0 : ℚ) (0 : ℚ)
            (by rw [hArowD i hi]; omega) (by rw [hBrowD i hi]; omega)]
    · rw [if_neg h2]
      have hc2 : c = 2 := by omega
      refine ⟨by simp [hMlen], ?_, ?_⟩
      · intro r hr
        obtain ⟨r2, hr2, rfl⟩ := List.mem_map.mp hr
        rw [List.length_map, hMrowlen r2 hr2, hc2]
      · intro i j hi hj
        rw [if_neg h1]
        rw [getD_map_eq _ _ i [] [] (by rw [hMlen]; exact hi),
          getD_map_eq _ _ j (0 : ℚ) (0 : ℤ)
            (by rw [hMgetD i hi, List.length_zipWith, hArowD i hi, hBrowD i hi,
                    min_self]; omega),
          hMgetD i hi,
          getD_zipWith_eq _ _ _ j (0 : ℚ) (0 : ℚ) (0 : ℚ)
            (by rw [hArowD i hi]; omega) (by rw [hBrowD i hi]; omega)]

/-- C4: for every aligned pair of rectangular chunks (equal nonzero frame
counts and equal nonzero channel counts), the mixer writes one block
whose rows match the overlapping frames, every row is exactly stereo,
every sample lies in `[-32767, 32767]`, and each output sample is the
clipped, `32767`-scaled, int16-truncated arithmetic mean of the two input
samples at that position (both stereo channels reading input channel 0
when the mean is mono, and channels beyond the second being dropped). -/
theorem mixStep_mix_props (l m : NpAudio) (hrl : l.Rect) (hrm : m.Rect)
    (hlen : m.len = l.len) (hpos : 0 < l.len)
    (hcols : m.colsOf = l.colsOf) (hcpos : 0 < l.colsOf) :
    ∃ out, mixStep l m = some out ∧
      out.length = l.len ∧
      (∀ r ∈ out, r.length = 2) ∧
      (∀ r ∈ out, ∀ x ∈ r, -32767 ≤ x ∧ x ≤ 32767) ∧
      (∀ i j, i < l.len → j < 2 →
        (out.getD i []).getD j 0 =
          pcm16 (((l.to2D.getD i []).getD (if l.colsOf = 1 then 0 else j) 0 +
                  (m.to2D.getD i []).getD (if l.colsOf = 1 then 0 else j) 0) / 2)) := by
  have hAlen : l.to2D.length = l.len := NpAudio.len_to2D l
  have hBlen : m.to2D.length = l.len := by rw [NpAudio.len_to2D]; exact hlen
  have hsome : mixStep l m = some (mixCore l.to2D m.to2D l.colsOf) := by
    rw [mixStep_eq_mix2D]
    unfold mix2D
    rw [hAlen, hBlen, min_self]
    have htakeA : l.to2D.take l.len = l.to2D := by
      rw [← hAlen]; exact List.take_length _
    have htakeB : m.to2D.take l.len = m.to2D := by
      rw [← hBlen]; exact List.take_length _
    rw [htakeA, htakeB, show cols l.to2D = l.colsOf from rfl,
      show cols m.to2D = m.colsOf from rfl, hcols, min_self,
      if_neg (by omega), if_neg (by omega)]
  have hrA : ∀ r ∈ l.to2D, r.length = l.colsOf := NpAudio.rect_rows l hrl hpos
  have hrB : ∀ r ∈ m.to2D, r.length = l.colsOf := fun r hr =>
    (NpAudio.rect_rows m hrm (by omega) r hr).trans hcols
  have hBA : m.to2D.length = l.to2D.length := by rw [hAlen, hBlen]
  have hposA : 0 < l.to2D.length := by rw [hAlen]; exact hpos
  obtain ⟨hL, hRows, hPt⟩ :=
    mixCore_aligned l.to2D m.to2D l.colsOf hrA hrB hBA hposA hcpos
  refine ⟨mixCore l.to2D m.to2D l.colsOf, hsome, ?_, hRows,
    mixCore_sample_range _ _ _, ?_⟩
  · rw [hL, hAlen]
  · intro i j hi hj
    exact hPt i j (by rw [hAlen]; exact hi) hj

/-- Witness for C4 at a concrete aligned pair: one frame, two channels
each, all samples zero. -/
theorem mixStep_mix_props_witness :
    ∃ out, mixStep (NpAudio.twoD [[0, 0]]) (NpAudio.twoD [[0, 0]]) = some out ∧
      out.length = (NpAudio.twoD [[(0 : ℚ), 0]]).len ∧
      (∀ r ∈ out, r.length = 2) ∧
      (∀ r ∈ out, ∀ x ∈ r, -32767 ≤ x ∧ x ≤ 32767) ∧
      (∀ i j, i < (NpAudio.twoD [[(0 : ℚ), 0]]).len → j < 2 →
        (out.getD i []).getD j 0 =
          pcm16 ((((NpAudio.twoD [[(0 : ℚ), 0]]).to2D.getD i []).getD
              (if (NpAudio.twoD [[(0 : ℚ), 0]]).colsOf = 1 then 0 else j) 0 +
            ((NpAudio.twoD [[(0 : ℚ), 0]]).to2D.getD i []).getD
              (if (NpAudio.twoD [[(0 : ℚ), 0]]).colsOf = 1 then 0 else j) 0) / 2)) :=
  mixStep_mix_props (NpAudio.twoD [[0, 0]]) (NpAudio.twoD [[0, 0]])
    (by decide) (by decide) (by decide) (by decide) (by decide) (by decide)

/- ===== Frame compositing (`record_frame`, src/src/core/recording_logic.py) ===== -/

/-- A local wall-clock reading: the fields consumed by
`time.strftime('%Y-%m-%d %H:%M:%S')`. -/
structure ClockTime where
  year : ℕ
  month : ℕ
  day : ℕ
  hour : ℕ
  minute : ℕ
  second : ℕ
deriving DecidableEq

/-- Decimal rendering of `n` zero-padded on the left to width `w`, as the
`%Y`/`%m`/`%d`/`%H`/`%M`/`%S` conversions do. -/
def zeroPad (w : ℕ) (n : ℕ) : String :=
  String.mk (List.replicate (w - (toString n).length) '0') ++ toString n

/-- `time.strftime('%Y-%m-%d %H:%M:%S')` (recording_logic.py line 124):
the zero-padded fields joined in `YYYY-MM-DD HH:MM:SS` layout. -/
def strftimeYmdHMS (t : ClockTime) : String :=
  zeroPad 4 t.year ++ "-" ++ zeroPad 2 t.month ++ "-" ++ zeroPad 2 t.day ++ " " ++
    zeroPad 2 t.hour ++ ":" ++ zeroPad 2 t.minute ++ ":" ++ zeroPad 2 t.second

/-- `WEBCAM_MARGIN` of recording_logic.py line 13. -/
def WEBCAM_MARGIN : ℕ := 20

/-- One webcam read: `ret, webcam_frame = webcam.read()` gives `readOk`;
`w` and `h` are the overlay size `webcam_w × webcam_h`
(`int(native * WEBCAM_SCALE)`, main.py lines 37-38) the raw frame is
resized to on line 113 (positive for any real device). -/
structure WebcamRead where
  readOk : Bool
  w : ℕ
  h : ℕ
deriving DecidableEq

/-- The webcam blit region: position of the slice assignment of line 117
and the overlay size. -/
structure OverlayRect where
  x : ℤ
  y : ℤ
  w : ℕ
  h : ℕ
deriving DecidableEq

/-- A burned-in text overlay: the rendered text and the `cv2.putText`
anchor. -/
structure TextStamp where
  text : String
  x : ℤ
  y : ℤ
deriving DecidableEq

/-- A composited output frame, abstracted to the geometry of the image
operations applied to it: its size, the webcam overlay region if one was
blitted, and the burned-in timestamp (text and anchor) if one was drawn.
Pixel contents are not modelled. -/
structure Frame where
  width : ℕ
  height : ℕ
  overlay : Option OverlayRect
  timestamp : Option TextStamp
deriving DecidableEq

/-- The number of indices selected by the Python slice `start:stop` (step
1) on an axis of length `len`: a negative bound counts from the end, and
both bounds are clamped to `[0, len]`, as in CPython `slice.indices`. -/
def pySliceLen (start stop : ℤ) (len : ℕ) : ℕ :=
  (if stop < 0 then ((len : ℤ) + stop).toNat else min stop.toNat len) -
    (if start < 0 then ((len : ℤ) + start).toNat else min start.toNat len)

/-- `record_frame` of src/src/core/recording_logic.py (lines 94-130),
abstracted to frame geometry.  The screen grab (line 98) has size
`screenW × screenH`; resizing by `RESOLUTION_SCALE = 0.5` with `int`
truncation (lines 101-104) gives width `screenW / 2` and height
`screenH / 2` (`int(n * 0.5)` is exactly `n / 2` in naturals).  When a
webcam handle exists and `webcam.read()` succeeds (lines 110-111), the
frame resized to `webcam_w × webcam_h` (line 113) is written into
`screen[y0 : y0 + h, x0 : x0 + w]` with `y0 = WEBCAM_MARGIN` and
`x0 = new_width - webcam_w - WEBCAM_MARGIN` (lines 115-117); numpy clamps
each slice to the array bounds and then requires the right-hand side to
broadcast into the clamped region (each of its axes must equal the
region's or be 1), raising `ValueError` otherwise, which propagates out
of `record_frame` so no frame is appended.  `textH` is the text height
returned by `cv2.getTextSize` (line 125); after a successful overlay the
timestamp of lines 119-128 is drawn at
`(x0, y0 + webcam_h + textH + 5)`.  With no webcam handle or a failed
read, the resized screen frame is appended without overlay or timestamp
(line 130). -/
def record_frame (screenW screenH : ℕ) (webcam : Option WebcamRead)
    (textH : ℕ) (now : ClockTime) : Except String Frame :=
  let newW := screenW / 2
  let newH := screenH / 2
  match webcam with
  | none => .ok ⟨newW, newH, none, none⟩
  | some cam =>
    if cam.readOk then
      let y0 : ℤ := (WEBCAM_MARGIN : ℤ)
      let x0 : ℤ := (newW : ℤ) - cam.w - (WEBCAM_MARGIN : ℤ)
      if (pySliceLen y0 (y0 + cam.h) newH = cam.h ∨ cam.h = 1) ∧
          (pySliceLen x0 (x0 + cam.w) newW = cam.w ∨ cam.w = 1) then
        .ok ⟨newW, newH, some ⟨x0, y0, cam.w, cam.h⟩,
             some ⟨strftimeYmdHMS now, x0, y0 + cam.h + textH + 5⟩⟩
      else .error "could not broadcast input array"
    else .ok ⟨newW, newH, none, none⟩

/-- C5 counterexample: with no webcam handle the composited frame carries
no timestamp at all — the timestamp drawing of recording_logic.py lines
119-128 sits inside the webcam branch, so the top-right timestamp the
claim promises for webcam-less frames is never drawn. -/
theorem record_frame_no_webcam_no_timestamp :
    (record_frame 1920 1080 none 11 ⟨2026, 1, 2, 3, 4, 5⟩).map Frame.timestamp =
      Except.ok none := rfl

/-- Unfolding of `record_frame` on a successful webcam read, exposing the
broadcast check of the slice assignment. -/
lemma record_frame_ok_read (sw sh w h tH : ℕ) (now : ClockTime) :
    record_frame sw sh (some ⟨true, w, h⟩) tH now =
      if (pySliceLen (WEBCAM_MARGIN : ℤ) ((WEBCAM_MARGIN : ℤ) + h) (sh / 2) = h ∨
            h = 1) ∧
          (pySliceLen (((sw / 2 : ℕ) : ℤ) - w - (WEBCAM_MARGIN : ℤ))
              ((((sw / 2 : ℕ) : ℤ) - w - (WEBCAM_MARGIN : ℤ)) + w) (sw / 2) = w ∨
            w = 1) then
        Except.ok ⟨sw / 2, sh / 2,
          some ⟨((sw / 2 : ℕ) : ℤ) - w - (WEBCAM_MARGIN : ℤ), (WEBCAM_MARGIN : ℤ), w, h⟩,
          some ⟨strftimeYmdHMS now, ((sw / 2 : ℕ) : ℤ) - w - (WEBCAM_MARGIN : ℤ),
                (WEBCAM_MARGIN : ℤ) + h + tH + 5⟩⟩
      else Except.error "could not broadcast input array" := rfl

/-- C5 amended: a timestamp in `YYYY-MM-DD HH:MM:SS` layout is burned in
exactly when a webcam frame was successfully read and blitted, anchored
at the overlay's left edge strictly below the overlay's bottom edge; with
no webcam handle or a failed read the frame has neither overlay nor
timestamp. -/
theorem record_frame_timestamp_placement :
    (∀ (sw sh tH : ℕ) (now : ClockTime),
      record_frame sw sh none tH now = .ok ⟨sw / 2, sh / 2, none, none⟩) ∧
    (∀ (sw sh w h tH : ℕ) (now : ClockTime),
      record_frame sw sh (some ⟨false, w, h⟩) tH now =
        .ok ⟨sw / 2, sh / 2, none, none⟩) ∧
    (∀ (sw sh w h tH : ℕ) (now : ClockTime) (f : Frame),
      record_frame sw sh (some ⟨true, w, h⟩) tH now = .ok f →
      (f.timestamp.isSome ↔ f.overlay.isSome)) ∧
    (∀ (sw sh w h tH : ℕ) (now : ClockTime) (f : Frame) (ts : TextStamp),
      record_frame sw sh (some ⟨true, w, h⟩) tH now = .ok f →
      f.timestamp = some ts →
      ts.text = strftimeYmdHMS now ∧
      ts.x = ((sw / 2 : ℕ) : ℤ) - w - (WEBCAM_MARGIN : ℤ) ∧
      ts.y = (WEBCAM_MARGIN : ℤ) + h + tH + 5 ∧
      (WEBCAM_MARGIN : ℤ) + h < ts.y) := by
  refine ⟨fun sw sh tH now => rfl, fun sw sh w h tH now => rfl, ?_, ?_⟩
  · intro sw sh w h tH now f hf
    rw [record_frame_ok_read] at hf
    split at hf
    · cases hf
      simp
    · exact absurd hf (by simp)
  · intro sw sh w h tH now f ts hf hts
    rw [record_frame_ok_read] at hf
    split at hf
    · cases hf
      simp only [Frame.timestamp] at hts
      cases hts
      refine ⟨rfl, rfl, rfl, ?_⟩
      simp only [TextStamp.y]
      omega
    · exact absurd hf (by simp)

/-- The clock reading used by the concrete compositing witnesses. -/
def sampleClock : ClockTime := ⟨2026, 1, 2, 3, 4, 5⟩

/-- The text stamp produced at the concrete C5 witness input. -/
def sampleStamp : TextStamp := ⟨strftimeYmdHMS sampleClock, 840, 116⟩

/-- The frame produced at the concrete C5 witness input. -/
def sampleFrame : Frame := ⟨960, 540, some ⟨840, 20, 100, 80⟩, some sampleStamp⟩

/-- Witness for the amended C5 at a concrete input: a `1920 × 1080`
screen, a successfully-read `100 × 80` webcam overlay and text height
`11` place the timestamp at `(840, 116)`, just below the overlay bottom
edge `100`. -/
theorem record_frame_timestamp_placement_witness :
    sampleStamp.text = strftimeYmdHMS sampleClock ∧
    sampleStamp.x = ((1920 / 2 : ℕ) : ℤ) - 100 - (WEBCAM_MARGIN : ℤ) ∧
    sampleStamp.y = (WEBCAM_MARGIN : ℤ) + 80 + 11 + 5 ∧
    (WEBCAM_MARGIN : ℤ) + 80 < sampleStamp.y :=
  record_frame_timestamp_placement.2.2.2 1920 1080 100 80 11 sampleClock
    sampleFrame sampleStamp (by rfl) (by rfl)

/-- C6 counterexample: a `200 × 100` screen resizes to `100 × 50`; a
`60 × 60` overlay at `y = 20` reaches row `80 > 50`, numpy clamps the
target region to 30 rows and the full-size overlay fails to broadcast, so
the routine raises instead of clipping and returning a composed frame. -/
theorem record_frame_overflow_raises :
    record_frame 200 100 (some ⟨true, 60, 60⟩) 11 ⟨2026, 1, 2, 3, 4, 5⟩ =
      Except.error "could not broadcast input array" := rfl

/-- C6 amended: when the overlay region would exceed the bottom of the
resized frame (in any non-degenerate case, overlay height at least 2),
the slice assignment raises a broadcast error and no composed frame is
produced — the overlay is not clipped; when the overlay fits entirely
within the resized frame, the composition succeeds with the full overlay
and the timestamp below it. -/
theorem record_frame_overlay_bounds :
    (∀ (sw sh w h tH : ℕ) (now : ClockTime),
      2 ≤ h → WEBCAM_MARGIN ≤ sh / 2 → sh / 2 < WEBCAM_MARGIN + h →
      record_frame sw sh (some ⟨true, w, h⟩) tH now =
        Except.error "could not broadcast input array") ∧
    (∀ (sw sh w h tH : ℕ) (now : ClockTime),
      WEBCAM_MARGIN + w ≤ sw / 2 → WEBCAM_MARGIN + h ≤ sh / 2 →
      record_frame sw sh (some ⟨true, w, h⟩) tH now =
        Except.ok ⟨sw / 2, sh / 2,
          some ⟨((sw / 2 : ℕ) : ℤ) - w - (WEBCAM_MARGIN : ℤ), (WEBCAM_MARGIN : ℤ), w, h⟩,
          some ⟨strftimeYmdHMS now, ((sw / 2 : ℕ) : ℤ) - w - (WEBCAM_MARGIN : ℤ),
                (WEBCAM_MARGIN : ℤ) + h + tH + 5⟩⟩) := by
  constructor
  · intro sw sh w h tH now h2 hle hlt
    simp only [WEBCAM_MARGIN] at hle hlt
    have hy : pySliceLen (WEBCAM_MARGIN : ℤ) ((WEBCAM_MARGIN : ℤ) + h) (sh / 2) ≠ h := by
      simp only [pySliceLen, WEBCAM_MARGIN]
      split_ifs <;> omega
    have hcond : ¬ ((pySliceLen (WEBCAM_MARGIN : ℤ) ((WEBCAM_MARGIN : ℤ) + h)
          (sh / 2) = h ∨ h = 1) ∧
        (pySliceLen (((sw / 2 : ℕ) : ℤ) - w - (WEBCAM_MARGIN : ℤ))
            ((((sw / 2 : ℕ) : ℤ) - w - (WEBCAM_MARGIN : ℤ)) + w) (sw / 2) = w ∨
          w = 1)) := by
      rintro ⟨hA, -⟩
      rcases hA with hA | hA
      · exact hy hA
      · omega
    rw [record_frame_ok_read, if_neg hcond]
  · intro sw sh w h tH now hw hh
    simp only [WEBCAM_MARGIN] at hw hh
    have hy : pySliceLen (WEBCAM_MARGIN : ℤ) ((WEBCAM_MARGIN : ℤ) + h) (sh / 2) = h := by
      simp only [pySliceLen, WEBCAM_MARGIN]
      split_ifs <;> omega
    have hx : pySliceLen (((sw / 2 : ℕ) : ℤ) - w - (WEBCAM_MARGIN : ℤ))
        ((((sw / 2 : ℕ) : ℤ) - w - (WEBCAM_MARGIN : ℤ)) + w) (sw / 2) = w := by
      simp only [pySliceLen, WEBCAM_MARGIN]
      split_ifs <;> omega
    rw [record_frame_ok_read, if_pos ⟨Or.inl hy, Or.inl hx⟩]

/-- Witness for the amended C6: a `200 × 100` screen (resized `100 × 50`)
with a `20 × 60` overlay exceeds the bottom edge, so the capture raises
the broadcast error. -/
theorem record_frame_overlay_bounds_witness :
    record_frame 200 100 (some ⟨true, 20, 60⟩) 11 sampleClock =
      Except.error "could not broadcast input array" :=
  record_frame_overlay_bounds.1 200 100 20 60 11 sampleClock
    (by decide) (by decide) (by decide)

/- ===== Recorder lifecycle (`ScreenRecorder`, src/src/core/recorder.py) ===== -/

/-- Observable side effects of the stop/save path, in program order. -/
inductive Event where
  | setStopEvent
  | joinAudioThread
  | releaseWebcam
  | closeLogFile
  | muxInvoked (numFrames : ℕ) (withAudio : Bool)
  | reportNothingToSave
deriving DecidableEq

/-- The mutable state of a `ScreenRecorder` (recorder.py lines 27-41):
the recording flag, the accumulated frame list, whether an audio thread
object exists (`self.audio_thread is not None`), whether `stop_event` is
set, whether a screen grab is available, and whether the webcam handle is
open (not yet released). -/
structure RecorderState where
  is_recording : Bool
  video_frames : List Frame
  audio_thread : Bool
  stop_event : Bool
  screen_available : Bool
  webcam : Bool
deriving DecidableEq

/-- `ScreenRecorder.start_recording` (recorder.py lines 124-139): bail
out when the screen is unavailable (lines 125-126) or when already
recording (lines 128-130); otherwise set the flag, clear the stop event
and, when the soundcard library `sc` loaded, start the audio thread. -/
def start_recording (sc : Bool) (s : RecorderState) : RecorderState :=
  if s.screen_available = false then s
  else if s.is_recording then s
  else
    let s1 := { s with is_recording := true, stop_event := false }
    if sc then { s1 with audio_thread := true } else s1

/-- `ScreenRecorder.stop_recording` (recorder.py lines 141-153): a no-op
when not recording (lines 142-144); otherwise clear the flag, set the
stop event, join the audio thread if one exists, and release the webcam
if one is open, in that order.  The second component is the list of
observable effects in program order. -/
def stop_recording (s : RecorderState) : RecorderState × List Event :=
  if s.is_recording = false then (s, [])
  else
    ({ s with is_recording := false, stop_event := true, webcam := false },
      [Event.setStopEvent] ++
        (if s.audio_thread then [Event.joinAudioThread] else []) ++
        (if s.webcam then [Event.releaseWebcam] else []))

/-- `ScreenRecorder.save_recording` (recorder.py lines 155-174): with no
accumulated frames, log "No frames to save." and return without touching
the muxer (lines 157-159); otherwise invoke the encoder once on the full
frame list, attaching the audio track when the temporary audio file
exists (lines 161-169). -/
def save_recording (audioFileExists : Bool) (s : RecorderState) : List Event :=
  if s.video_frames = [] then [Event.reportNothingToSave]
  else [Event.muxInvoked s.video_frames.length audioFileExists]

/-- The stop-then-save sequence: `stop_recording` followed by
`save_recording` on the resulting state, as any caller of the recorder
runs them. -/
def stopThenSave (audioFileExists : Bool) (s : RecorderState) : List Event :=
  (stop_recording s).2 ++ save_recording audioFileExists (stop_recording s).1

/-- The shutdown path of `start_logging_and_recording` (src/main.py lines
77-97), as the list of observable effects in program order: set the stop
flag (line 78), release the webcam if one was opened (lines 79-80), join
the audio thread (line 81), close the CSV log (line 83), and encode once
when at least one frame was captured (lines 88-97), attaching audio when
the temporary file exists. -/
def mainShutdown (webcamPresent : Bool) (videoFrames : ℕ)
    (audioFileExists : Bool) : List Event :=
  [Event.setStopEvent] ++
    (if webcamPresent then [Event.releaseWebcam] else []) ++
    [Event.joinAudioThread, Event.closeLogFile] ++
    (if videoFrames = 0 then [] else [Event.muxInvoked videoFrames audioFileExists])

/-- C7: calling `start_recording` while already recording leaves the
whole state unchanged — in particular the recording flag, the stop event,
the audio thread and the frame sequence. -/
theorem start_recording_reentrant_noop (sc : Bool) (s : RecorderState)
    (h : s.is_recording = true) : start_recording sc s = s := by
  unfold start_recording
  rw [h]
  split <;> rfl

/-- Witness for C7 at a concrete recording state. -/
theorem start_recording_reentrant_noop_witness :
    start_recording true ⟨true, [], true, false, true, true⟩ =
      ⟨true, [], true, false, true, true⟩ :=
  start_recording_reentrant_noop true ⟨true, [], true, false, true, true⟩ rfl

/-- C8: stopping a recording session emits the stop signal first and
joins the audio thread second, before anything else; composed with the
save step, any mux invocation can only occur after the join, on both the
`ScreenRecorder` path and the `main.py` shutdown path (where the webcam
release may sit between the signal and the join). -/
theorem stop_then_save_ordering :
    (∀ (s : RecorderState) (a : Bool),
      s.is_recording = true → s.audio_thread = true →
      ∃ rest, stopThenSave a s =
          Event.setStopEvent :: Event.joinAudioThread :: rest ∧
        ∀ n b, Event.muxInvoked n b ∈ stopThenSave a s →
          Event.muxInvoked n b ∈ rest) ∧
    (∀ (wc : Bool) (fr : ℕ) (a : Bool),
      ∃ mid rest, mainShutdown wc fr a =
          Event.setStopEvent :: (mid ++ Event.joinAudioThread :: rest) ∧
        (∀ e ∈ mid, e = Event.releaseWebcam) ∧
        ∀ n b, Event.muxInvoked n b ∈ mainShutdown wc fr a →
          Event.muxInvoked n b ∈ rest) := by
  constructor
  · intro s a h1 h2
    have htr : stopThenSave a s =
        Event.setStopEvent :: Event.joinAudioThread ::
          ((if s.webcam then [Event.releaseWebcam] else []) ++
            save_recording a (stop_recording s).1) := by
      simp [stopThenSave, stop_recording, h1, h2]
    refine ⟨_, htr, ?_⟩
    intro n b hmem
    rw [htr] at hmem
    simpa using hmem
  · intro wc fr a
    refine ⟨if wc then [Event.releaseWebcam] else [],
      Event.closeLogFile ::
        (if fr = 0 then [] else [Event.muxInvoked fr a]), ?_, ?_, ?_⟩
    · simp [mainShutdown]
    · intro e he
      rcases wc with _ | _
      · simp at he
      · simpa using he
    · intro n b hmem
      by_cases hfr : fr = 0 <;> rcases wc with _ | _ <;>
        simp [mainShutdown, hfr] at hmem ⊢ <;> exact hmem

/-- Witness for C8 at a concrete recording state with a live audio thread
and an open webcam. -/
theorem stop_then_save_ordering_witness :
    ∃ rest, stopThenSave true ⟨true, [], true, false, true, true⟩ =
        Event.setStopEvent :: Event.joinAudioThread :: rest ∧
      ∀ n b,
        Event.muxInvoked n b ∈ stopThenSave true ⟨true, [], true, false, true, true⟩ →
        Event.muxInvoked n b ∈ rest :=
  stop_then_save_ordering.1 ⟨true, [], true, false, true, true⟩ true rfl rfl

/-- C9: saving with an empty frame sequence only reports that there is
nothing to save and returns without invoking the muxer; moreover every
mux invocation, on the recorder path or on the `main.py` path, carries a
positive frame count — the muxer is never called with zero frames. -/
theorem save_recording_empty_guard :
    (∀ (s : RecorderState) (a : Bool), s.video_frames = [] →
      save_recording a s = [Event.reportNothingToSave]) ∧
    (∀ (s : RecorderState) (a : Bool) (n : ℕ) (b : Bool),
      Event.muxInvoked n b ∈ save_recording a s → 0 < n) ∧
    (∀ (wc : Bool) (fr : ℕ) (a : Bool) (n : ℕ) (b : Bool),
      Event.muxInvoked n b ∈ mainShutdown wc fr a → 0 < n) := by
  refine ⟨?_, ?_, ?_⟩
  · intro s a h
    simp [save_recording, h]
  · intro s a n b hmem
    unfold save_recording at hmem
    split at hmem
    · simp at hmem
    · rename_i hne
      simp at hmem
      have hlen : 0 < s.video_frames.length := List.length_pos.mpr hne
      omega
  · intro wc fr a n b hmem
    by_cases hfr : fr = 0 <;> rcases wc with _ | _ <;>
      simp [mainShutdown, hfr] at hmem <;> omega

/-- Witness for C9 at a concrete state with no accumulated frames. -/
theorem save_recording_empty_guard_witness :
    save_recording true ⟨false, [], false, false, true, false⟩ =
      [Event.reportNothingToSave] :=
  save_recording_empty_guard.1 ⟨false, [], false, false, true, false⟩ true rfl

/-- C10: calling `stop_recording` when not recording is a no-op: the
returned state equals the input state (flag still false, stop event not
set, webcam handle still open) and no effect — no set, no join, no
release — is performed. -/
theorem stop_recording_not_recording_noop (s : RecorderState)
    (h : s.is_recording = false) : stop_recording s = (s, []) := by
  unfold stop_recording
  rw [if_pos h]

/-- Witness for C10 at a concrete idle state. -/
theorem stop_recording_not_recording_noop_witness :
    stop_recording ⟨false, [], true, false, true, true⟩ =
      (⟨false, [], true, false, true, true⟩, []) :=
  stop_recording_not_recording_noop ⟨false, [], true, false, true, true⟩ rfl

end Dayflow
